import Mathlib

/-!
Verification of the category-governed balance-sheet valuation engine of the
Dim-dawg/Finance repository.  The engine lives in
`src/components/Navbar.tsx` (functions `snapshotTransactions`,
`getPeriodKey`, `calculateDynamicValue` and the inner `getTxImpact`), with a
mirror copy in `src/__tests__/BalanceSheetCalculation.test.ts`.

Modelling conventions of the shallow embedding:
* JavaScript numbers are modelled as integers (`ℤ`): none of the verified
  properties depend on floating-point rounding.
* Optional numeric fields (`cap?`, `maxValue?`, `initialValue?`) are
  `Option ℤ`; JavaScript truthiness of a number (`undefined`, `0` and `NaN`
  are falsy, every other number truthy) is modelled by `capTruthy`.
* Strings are Lean `String`s; `toLowerCase`, `trim`, `split(',')`,
  `includes` and lexicographic `<=` are re-implemented character by
  character below so that every definition evaluates inside the kernel.
* `new Date(dateStr)` is modelled by `parseDate`: a strict `YYYY-MM-DD`
  string parses to its (year, month) pair; any other string models an
  `Invalid Date`, whose `getFullYear`/`getMonth` return `NaN` in JS.  The
  period keys built from an invalid date stringify those `NaN`s, which
  `getPeriodKey` reproduces literally.  Local time is identified with UTC.
* `Transaction.type` is modelled by the two-valued `TxType`, following the
  engine's data model (`'income' | 'expense'`).
-/

/-- ASCII lower-casing of one character, modelling `String.prototype.toLowerCase`
on the ASCII range (the only range exercised by category names and keywords). -/
def lowerChar (c : Char) : Char :=
  if 65 ≤ c.toNat ∧ c.toNat ≤ 90 then Char.ofNat (c.toNat + 32) else c

/-- Model of `s.toLowerCase()`. -/
def toLowerStr (s : String) : String :=
  String.mk (s.data.map lowerChar)

/-- ASCII whitespace test used by the model of `String.prototype.trim`. -/
def isSpaceChar (c : Char) : Bool :=
  c == ' ' || c == '\t' || c == '\n' || c == '\r'

/-- Model of `s.trim()`: drop leading and trailing whitespace. -/
def jsTrim (s : String) : String :=
  String.mk (((s.data.dropWhile isSpaceChar).reverse.dropWhile isSpaceChar).reverse)

/-- Helper for `splitComma`: accumulate the current segment (reversed). -/
def splitCommaAux : List Char → List Char → List (List Char)
  | [], acc => [acc.reverse]
  | c :: tl, acc =>
      if c = ',' then acc.reverse :: splitCommaAux tl []
      else splitCommaAux tl (c :: acc)

/-- Model of `s.split(',')`. -/
def splitComma (s : String) : List String :=
  (splitCommaAux s.data []).map String.mk

/-- Does the character list `s` start with `p`? -/
def listStartsWith : List Char → List Char → Bool
  | _, [] => true
  | [], _ :: _ => false
  | a :: s, b :: t => a == b && listStartsWith s t

/-- Does the character list `s` contain `sub` as a contiguous run? -/
def listHasSub : List Char → List Char → Bool
  | [], sub => sub.isEmpty
  | c :: tl, sub => listStartsWith (c :: tl) sub || listHasSub tl sub

/-- Model of `s.includes(sub)` (substring test). -/
def strIncludes (s sub : String) : Bool :=
  listHasSub s.data sub.data

/-- Lexicographic `<=` on character lists by code point, modelling the
JavaScript string comparison `a <= b` (code-unit order; identical on the
ASCII date strings the engine compares). -/
def charListLe : List Char → List Char → Bool
  | [], _ => true
  | _ :: _, [] => false
  | a :: s, b :: t =>
      a.toNat < b.toNat || (a.toNat == b.toNat && charListLe s t)

/-- Model of the JavaScript comparison `a <= b` on strings. -/
def jsStrLe (a b : String) : Bool :=
  charListLe a.data b.data

/-- Numeric value of a decimal digit character. -/
def digitVal (c : Char) : Nat := c.toNat - 48

/-- Model of `new Date(dateStr)` restricted to the ledger's date format: a
strict `YYYY-MM-DD` string with a plausible month and day parses to its
`(year, month)` pair (month 1-indexed); every other string models an
`Invalid Date` (`NaN` fields) and parses to `none`. -/
def parseDate (s : String) : Option (Nat × Nat) :=
  match s.data with
  | [y1, y2, y3, y4, s1, m1, m2, s2, d1, d2] =>
      if s1 = '-' ∧ s2 = '-' ∧ y1.isDigit ∧ y2.isDigit ∧ y3.isDigit ∧ y4.isDigit ∧
          m1.isDigit ∧ m2.isDigit ∧ d1.isDigit ∧ d2.isDigit ∧
          1 ≤ 10 * digitVal m1 + digitVal m2 ∧ 10 * digitVal m1 + digitVal m2 ≤ 12 ∧
          1 ≤ 10 * digitVal d1 + digitVal d2 ∧ 10 * digitVal d1 + digitVal d2 ≤ 31 then
        some (1000 * digitVal y1 + 100 * digitVal y2 + 10 * digitVal y3 + digitVal y4,
              10 * digitVal m1 + digitVal m2)
      else none
  | _ => none

/-- Model of `String(m).padStart(2, '0')` for a natural month number. -/
def pad2 (n : Nat) : String :=
  if n < 10 then "0" ++ toString n else toString n

/-- `type: 'income' | 'expense'` of a ledger transaction. -/
inductive TxType where
  | income : TxType
  | expense : TxType
deriving DecidableEq

/-- A ledger transaction (the fields the engine reads). -/
structure Transaction where
  date : String
  description : String
  amount : ℤ
  category : String
  txType : TxType
deriving DecidableEq

/-- `type: 'asset' | 'liability'` of a balance-sheet item. -/
inductive ItemType where
  | asset : ItemType
  | liability : ItemType
deriving DecidableEq

/-- `LinkedCategoryEntry` from `src/types.ts`: either a bare category name
(legacy shorthand) or an explicit record `{name, cap?, period?}`. -/
inductive LinkedCategoryEntry where
  | str (name : String) : LinkedCategoryEntry
  | obj (name : String) (cap : Option ℤ) (period : Option String) : LinkedCategoryEntry
deriving DecidableEq

/-- A category link after normalization inside `calculateDynamicValue`. -/
structure NormalizedLink where
  name : String
  cap : Option ℤ
  period : String
deriving DecidableEq

/-- The fields of `BalanceSheetItem` read by `calculateDynamicValue`. -/
structure BalanceSheetItem where
  itemType : ItemType
  value : ℤ
  isCalculated : Bool
  initialValue : Option ℤ
  linkedCategories : List LinkedCategoryEntry
  linkedKeywords : Option String
  maxValue : Option ℤ
deriving DecidableEq

/-- JavaScript truthiness of an optional numeric field: `undefined` and `0`
are falsy, every other number is truthy. -/
def capTruthy : Option ℤ → Bool
  | none => false
  | some c => decide (c ≠ 0)

/-- `snapshotTransactions` (Navbar.tsx lines 253-257): `'today'` is the
no-limit sentinel; otherwise the cutoff is the selected year's December 31
and transactions are kept when `t.date <= cutoff` (string comparison). -/
def snapshotTransactions (transactions : List Transaction) (selectedSnapshot : String) :
    List Transaction :=
  if selectedSnapshot = "today" then transactions
  else transactions.filter (fun t => jsStrLe t.date (selectedSnapshot ++ "-12-31"))

/-- `getPeriodKey` (Navbar.tsx lines 260-271).  On a parseable date it
builds the quarterly `"y-Qq"` (with `q = ⌈m/3⌉`, computed as `(m+2)/3`),
yearly `"y"`, or default monthly `"y-mm"` key.  On an invalid date the JS
code stringifies `NaN` year/month/quarter, giving the literal keys below. -/
def getPeriodKey (dateStr : String) (period : String) : String :=
  match parseDate dateStr with
  | some (y, m) =>
      if period = "quarterly" then toString y ++ "-Q" ++ toString ((m + 2) / 3)
      else if period = "yearly" then toString y
      else toString y ++ "-" ++ pad2 m
  | none =>
      if period = "quarterly" then "NaN-QNaN"
      else if period = "yearly" then "NaN"
      else "NaN-NaN"

/-- The inner `getTxImpact` (Navbar.tsx lines 295-299): signed impact of a
transaction on an item.  Asset: expense adds, income subtracts; liability:
income adds, expense subtracts. -/
def getTxImpact (itemType : ItemType) (t : Transaction) : ℤ :=
  match itemType with
  | .asset => match t.txType with
      | .expense => t.amount
      | .income => -t.amount
  | .liability => match t.txType with
      | .income => t.amount
      | .expense => -t.amount

/-- The keyword list (Navbar.tsx line 277):
`item.linkedKeywords ? item.linkedKeywords.toLowerCase().split(',').map(k => k.trim()) : []`.
An absent or empty (falsy) `linkedKeywords` yields the empty list. -/
def globalKeywordsOf : Option String → List String
  | none => []
  | some s => if s = "" then [] else (splitComma (toLowerStr s)).map jsTrim

/-- The per-link transaction filter (Navbar.tsx lines 286-290): the
category must match the link name case-insensitively, and when the keyword
list is non-empty the description must contain one of the keywords. -/
def selectTxs (keywords : List String) (linkName : String) (txs : List Transaction) :
    List Transaction :=
  txs.filter (fun t =>
    (toLowerStr t.category == toLowerStr linkName) &&
    (keywords.isEmpty || keywords.any (fun k => strIncludes (toLowerStr t.description) k)))

/-- Category normalization (Navbar.tsx lines 280-282): a bare string
becomes `{name, cap: 0, period: 'lifetime'}`; an object keeps its fields
with `period: c.period || 'lifetime'` (so an absent or empty period
defaults to `'lifetime'`). -/
def normalizeLink : LinkedCategoryEntry → NormalizedLink
  | .str n => ⟨n, some 0, "lifetime"⟩
  | .obj n cap period =>
      ⟨n, cap, match period with
               | none => "lifetime"
               | some p => if p = "" then "lifetime" else p⟩

/-- One entry of the JS `groups` object update
`groups[key] = (groups[key] || 0) + impact`: add to the first entry with
this key, or append a fresh entry (insertion order preserved, as for JS
object string keys). -/
def insertAdd : List (String × ℤ) → String → ℤ → List (String × ℤ)
  | [], k, v => [(k, v)]
  | (k0, v0) :: tl, k, v =>
      if k0 = k then (k0, v0 + v) :: tl else (k0, v0) :: insertAdd tl k v

/-- Period key of a transaction under a grouping period. -/
def keyOf (period : String) (t : Transaction) : String :=
  getPeriodKey t.date period

/-- The `catTxs.forEach` loop building `groups` (Navbar.tsx lines 308-312). -/
def buildGroups (it : ItemType) (period : String) :
    List Transaction → List (String × ℤ) → List (String × ℤ)
  | [], g => g
  | t :: tl, g => buildGroups it period tl (insertAdd g (keyOf period t) (getTxImpact it t))

/-- The per-bucket cap (Navbar.tsx lines 314-321): a positive bucket amount
with a truthy cap is clamped by `Math.min`; otherwise it passes unchanged. -/
def effectiveAmount (cap : Option ℤ) (amount : ℤ) : ℤ :=
  match cap with
  | some c => if 0 < amount ∧ c ≠ 0 then min amount c else amount
  | none => amount

/-- Contribution of one normalized category link (Navbar.tsx lines
285-324): filter the transactions, then either the lifetime branch (cap
falsy or period `'lifetime'`) with its conditional clamp
`(cap && totalImpact > cap) ? cap : totalImpact`, or the periodic branch
summing per-bucket `effective` amounts over the groups object. -/
def linkContribution (it : ItemType) (keywords : List String) (link : NormalizedLink)
    (txs : List Transaction) : ℤ :=
  let catTxs := selectTxs keywords link.name txs
  if capTruthy link.cap = false ∨ link.period = "lifetime" then
    let totalImpact := (catTxs.map (getTxImpact it)).sum
    match link.cap with
    | some c => if c ≠ 0 ∧ c < totalImpact then c else totalImpact
    | none => totalImpact
  else
    ((buildGroups it link.period catTxs []).map (fun kv => effectiveAmount link.cap kv.2)).sum

/-- `calculateDynamicValue` (Navbar.tsx lines 273-332), the whole pipeline
for one item against an (already snapshot-filtered) transaction list.  A
non-calculated item returns `item.value || 0` (which is `item.value` over
`ℤ`); a calculated item folds every link's contribution onto
`item.initialValue || 0`, applies the global `maxValue` ceiling when it is
truthy and positive, and floors at zero. -/
def calculateDynamicValue (item : BalanceSheetItem) (snapshotTxs : List Transaction) : ℤ :=
  if item.isCalculated = false then item.value
  else
    let globalKeywords := globalKeywordsOf item.linkedKeywords
    let categories := item.linkedCategories.map normalizeLink
    let runningTotal := categories.foldl
      (fun rt link => rt + linkContribution item.itemType globalKeywords link snapshotTxs)
      (item.initialValue.getD 0)
    let capped := match item.maxValue with
      | some mv => if 0 < mv then min runningTotal mv else runningTotal
      | none => runningTotal
    max 0 capped

/-- The running total after category aggregation, before the global ceiling
and the zero floor: `initialValue || 0` plus the sum of all link
contributions. -/
def rawRunningTotal (item : BalanceSheetItem) (txs : List Transaction) : ℤ :=
  item.initialValue.getD 0 +
    ((item.linkedCategories.map normalizeLink).map
      (fun link => linkContribution item.itemType (globalKeywordsOf item.linkedKeywords) link txs)).sum

/-- Signed amount of one period bucket: the sum of impacts of the selected
transactions whose period key is `k`. -/
def bucketSum (it : ItemType) (period : String) (txs : List Transaction) (k : String) : ℤ :=
  ((txs.filter (fun t => keyOf period t == k)).map (getTxImpact it)).sum

/-- Value stored in the groups object at key `k` (`groups[k] || 0`). -/
def valAt : List (String × ℤ) → String → ℤ
  | [], _ => 0
  | (k0, v0) :: tl, k => if k0 = k then v0 else valAt tl k

/-- Folding `+ f x` over a list starting from `a` is `a` plus the sum of the
mapped list; this relates the running-total loop to a commutative sum. -/
theorem foldl_add_eq {α : Type} (f : α → ℤ) (l : List α) (a : ℤ) :
    l.foldl (fun rt x => rt + f x) a = a + (l.map f).sum := by
  induction l generalizing a with
  | nil => simp
  | cons x tl ih => simp [ih (a + f x), add_assoc]

theorem valAt_insertAdd (g : List (String × ℤ)) (k : String) (v : ℤ) (k' : String) :
    valAt (insertAdd g k v) k' = if k' = k then valAt g k + v else valAt g k' := by
  induction g with
  | nil =>
      by_cases h : k' = k
      · subst h; simp [insertAdd, valAt]
      · have h2 : ¬ k = k' := fun hh => h hh.symm
        simp [insertAdd, valAt, h, h2]
  | cons kv tl ih =>
      obtain ⟨k0, v0⟩ := kv
      by_cases h0 : k0 = k
      · subst h0
        by_cases h' : k' = k0
        · subst h'; simp [insertAdd, valAt]
        · have h2 : ¬ k0 = k' := fun hh => h' hh.symm
          simp [insertAdd, valAt, h', h2]
      · by_cases h' : k0 = k'
        · subst h'
          have h2 : ¬ k0 = k := h0
          simp [insertAdd, valAt, h2, ih]
        · simp [insertAdd, valAt, h0, h', ih]

theorem keys_insertAdd (g : List (String × ℤ)) (k : String) (v : ℤ) :
    (insertAdd g k v).map Prod.fst =
      if k ∈ g.map Prod.fst then g.map Prod.fst else g.map Prod.fst ++ [k] := by
  induction g with
  | nil => simp [insertAdd]
  | cons kv tl ih =>
      obtain ⟨k0, v0⟩ := kv
      by_cases h0 : k0 = k
      · subst h0; simp [insertAdd]
      · have h2 : ¬ k = k0 := fun hh => h0 hh.symm
        by_cases hmem : k ∈ tl.map Prod.fst
        · simp [insertAdd, h0, h2, ih, hmem]
        · simp [insertAdd, h0, h2, ih, hmem]

theorem nodup_keys_insertAdd (g : List (String × ℤ)) (k : String) (v : ℤ)
    (h : (g.map Prod.fst).Nodup) : ((insertAdd g k v).map Prod.fst).Nodup := by
  rw [keys_insertAdd]
  split
  · exact h
  · next hk => exact List.Nodup.append h (List.nodup_singleton k) (by simpa using hk)

theorem sum_map_eq_finsetSum (f : ℤ → ℤ) (g : List (String × ℤ))
    (h : (g.map Prod.fst).Nodup) :
    (g.map (fun kv => f kv.2)).sum =
      Finset.sum (g.map Prod.fst).toFinset (fun k => f (valAt g k)) := by
  induction g with
  | nil => simp
  | cons kv tl ih =>
      obtain ⟨k0, v0⟩ := kv
      simp only [List.map_cons] at h
      have h0 : k0 ∉ tl.map Prod.fst := (List.nodup_cons.mp h).1
      have htl : (tl.map Prod.fst).Nodup := (List.nodup_cons.mp h).2
      simp only [List.map_cons, List.sum_cons, List.toFinset_cons]
      rw [Finset.sum_insert (by simpa using h0)]
      congr 1
      · simp [valAt]
      · rw [ih htl]
        refine Finset.sum_congr rfl ?_
        intro k hk
        have hne : k0 ≠ k := fun hh => h0 (hh ▸ List.mem_toFinset.mp hk)
        simp [valAt, hne]

theorem valAt_buildGroups (it : ItemType) (p : String) (txs : List Transaction)
    (g : List (String × ℤ)) (k : String) :
    valAt (buildGroups it p txs g) k = valAt g k + bucketSum it p txs k := by
  induction txs generalizing g with
  | nil => simp [buildGroups, bucketSum]
  | cons t tl ih =>
      simp only [buildGroups]
      rw [ih, valAt_insertAdd]
      unfold bucketSum
      by_cases h : keyOf p t = k
      · subst h
        simp [List.filter_cons, add_assoc]
      · have h2 : ¬ k = keyOf p t := fun hh => h hh.symm
        simp [List.filter_cons, h, h2]

theorem keys_buildGroups_toFinset (it : ItemType) (p : String) (txs : List Transaction)
    (g : List (String × ℤ)) :
    ((buildGroups it p txs g).map Prod.fst).toFinset =
      (g.map Prod.fst).toFinset ∪ (txs.map (keyOf p)).toFinset := by
  induction txs generalizing g with
  | nil => simp [buildGroups]
  | cons t tl ih =>
      simp only [buildGroups, List.map_cons, List.toFinset_cons]
      rw [ih, keys_insertAdd]
      by_cases hmem : keyOf p t ∈ g.map Prod.fst
      · have : keyOf p t ∈ (g.map Prod.fst).toFinset := List.mem_toFinset.mpr hmem
        simp only [if_pos hmem]
        ext x
        simp only [Finset.mem_union, Finset.mem_insert, List.mem_toFinset]
        constructor
        · rintro (hx | hx)
          · exact Or.inl hx
          · exact Or.inr (Or.inr hx)
        · rintro (hx | hx | hx)
          · exact Or.inl hx
          · exact Or.inl (hx ▸ hmem)
          · exact Or.inr hx
      · simp only [if_neg hmem]
        ext x
        simp only [Finset.mem_union, Finset.mem_insert, List.mem_toFinset,
          List.mem_append, List.mem_singleton]
        tauto

theorem nodup_keys_buildGroups (it : ItemType) (p : String) (txs : List Transaction)
    (g : List (String × ℤ)) (h : (g.map Prod.fst).Nodup) :
    ((buildGroups it p txs g).map Prod.fst).Nodup := by
  induction txs generalizing g with
  | nil => simpa [buildGroups] using h
  | cons t tl ih => exact ih _ (nodup_keys_insertAdd _ _ _ h)

/-- The sum over the JS `groups` object (insertion-ordered association list)
equals the order-free sum, over the set of period keys of the selected
transactions, of the per-bucket effective amounts. -/
theorem periodic_sum_eq (it : ItemType) (cap : Option ℤ) (p : String)
    (catTxs : List Transaction) :
    ((buildGroups it p catTxs []).map (fun kv => effectiveAmount cap kv.2)).sum =
      Finset.sum ((catTxs.map (keyOf p)).toFinset)
        (fun k => effectiveAmount cap (bucketSum it p catTxs k)) := by
  rw [sum_map_eq_finsetSum (fun a => effectiveAmount cap a) _
    (nodup_keys_buildGroups it p catTxs [] (by simp))]
  rw [keys_buildGroups_toFinset]
  simp only [List.map_nil, List.toFinset_nil, Finset.empty_union]
  refine Finset.sum_congr rfl ?_
  intro k _
  rw [valAt_buildGroups]
  simp [valAt]

/-- The contribution of a link is invariant under permutations of the
transaction list: the lifetime branch is a commutative sum and the periodic
branch is a sum of per-bucket sums. -/
theorem linkContribution_perm (it : ItemType) (kws : List String) (link : NormalizedLink)
    (txs txs' : List Transaction) (h : txs.Perm txs') :
    linkContribution it kws link txs = linkContribution it kws link txs' := by
  have hsel : (selectTxs kws link.name txs).Perm (selectTxs kws link.name txs') := by
    unfold selectTxs; exact h.filter _
  unfold linkContribution
  by_cases hC : capTruthy link.cap = false ∨ link.period = "lifetime"
  · simp only [if_pos hC]
    have hsum : ((selectTxs kws link.name txs).map (getTxImpact it)).sum
        = ((selectTxs kws link.name txs').map (getTxImpact it)).sum :=
      (hsel.map _).sum_eq
    rw [hsum]
  · simp only [if_neg hC]
    rw [periodic_sum_eq, periodic_sum_eq]
    have hto : ((selectTxs kws link.name txs).map (keyOf link.period)).toFinset
        = ((selectTxs kws link.name txs').map (keyOf link.period)).toFinset :=
      List.toFinset_eq_of_perm _ _ (hsel.map _)
    rw [hto]
    refine Finset.sum_congr rfl ?_
    intro k _
    unfold bucketSum
    exact congrArg (effectiveAmount link.cap)
      (List.Perm.sum_eq
        (List.Perm.map (getTxImpact it)
          (List.Perm.filter (fun t => keyOf link.period t == k) hsel)))

/-- A successfully parsed date has a 1-indexed month between 1 and 12. -/
theorem parseDate_month_bounds (s : String) (y m : Nat) (h : parseDate s = some (y, m)) :
    1 ≤ m ∧ m ≤ 12 := by
  unfold parseDate at h
  split at h
  · split at h
    · next hcond =>
        obtain ⟨_, _, _, _, _, _, _, _, _, _, hm1, hm2, _, _⟩ := hcond
        have hp := Option.some.inj h
        have hm : m = _ := (congrArg Prod.snd hp).symm
        rw [hm]
        exact ⟨hm1, hm2⟩
    · exact absurd h (by simp)
  · exact absurd h (by simp)

/-- C1: for every transaction and item, the signed impact is: on an asset,
plus the amount for an expense and minus the amount for an income; on a
liability, plus the amount for an income and minus the amount for an
expense. -/
theorem C1_sign_convention (it : ItemType) (t : Transaction) :
    getTxImpact it t =
      match it, t.txType with
      | .asset, .expense => t.amount
      | .asset, .income => -t.amount
      | .liability, .income => t.amount
      | .liability, .expense => -t.amount := by
  obtain ⟨d, ds, a, c, ty⟩ := t
  cases it <;> cases ty <;> rfl

/-- C2: for a link whose cap is set (truthy) and whose period is not
`'lifetime'`, the contribution is obtained by grouping the selected
transactions by period key, summing the signed impacts per bucket, and
adding `min(bucketSum, cap)` for positive buckets and the untouched
`bucketSum` for non-positive ones; the period keys are the monthly
`"year-2-digit-month"`, quarterly `"year-Qceil(month/3)"` and yearly
`"year"` strings with a 1-indexed month. -/
theorem C2_periodic_cap (it : ItemType) (kws : List String) (n : String) (c : ℤ)
    (p : String) (txs : List Transaction) (d : String) (y m : Nat)
    (hc : c ≠ 0) (hp : p ≠ "lifetime") (hd : parseDate d = some (y, m)) :
    linkContribution it kws ⟨n, some c, p⟩ txs =
      Finset.sum (((selectTxs kws n txs).map (keyOf p)).toFinset)
        (fun k =>
          if 0 < bucketSum it p (selectTxs kws n txs) k
          then min (bucketSum it p (selectTxs kws n txs) k) c
          else bucketSum it p (selectTxs kws n txs) k) ∧
    getPeriodKey d "monthly" = toString y ++ "-" ++ pad2 m ∧
    getPeriodKey d "quarterly" = toString y ++ "-Q" ++ toString ⌈(m : ℚ) / 3⌉₊ ∧
    getPeriodKey d "yearly" = toString y := by
  have hceil : ((m + 2) / 3 : Nat) = ⌈(m : ℚ) / 3⌉₊ := by
    obtain ⟨h1, h2⟩ := parseDate_month_bounds d y m hd
    interval_cases m <;> rw [eq_comm, Nat.ceil_eq_iff (by norm_num)] <;> norm_num
  refine ⟨?_, ?_, ?_, ?_⟩
  · have hcond : ¬ (capTruthy (some c) = false ∨ p = "lifetime") := by
      simp [capTruthy, hc, hp]
    unfold linkContribution
    rw [if_neg hcond]
    rw [periodic_sum_eq]
    refine Finset.sum_congr rfl ?_
    intro k _
    simp [effectiveAmount, hc]
  · simp +decide [getPeriodKey, hd]
  · simp +decide [getPeriodKey, hd, hceil]
  · simp +decide [getPeriodKey, hd]

/-- Witness for C2 on the test suite's monthly-cap data: January bucket
1100 clamps to 1000, February bucket 400 passes, total 1400. -/
theorem C2_periodic_cap_witness :
    ((1000 : ℤ) ≠ 0) ∧ (("monthly" : String) ≠ "lifetime") ∧
      parseDate "2023-01-15" = some (2023, 1) ∧
      linkContribution .asset [] ⟨"Cloud", some 1000, "monthly"⟩
        [⟨"2023-01-15", "", 500, "Cloud", .expense⟩,
         ⟨"2023-01-20", "", 600, "Cloud", .expense⟩,
         ⟨"2023-02-10", "", 400, "Cloud", .expense⟩] = 1400 := by
  refine ⟨by decide, by decide, by decide, ?_⟩
  rw [(C2_periodic_cap .asset [] "Cloud" 1000 "monthly"
    [⟨"2023-01-15", "", 500, "Cloud", .expense⟩,
     ⟨"2023-01-20", "", 600, "Cloud", .expense⟩,
     ⟨"2023-02-10", "", 400, "Cloud", .expense⟩] "2023-01-15" 2023 1
    (by decide) (by decide) (by decide)).1]
  decide

/-- C3 counterexample: with the negative cap −5 on a lifetime link, the
negative lifetime total −3 IS clamped (to −5), because a negative cap is
truthy in JavaScript and `−5 < −3` triggers the clamp. -/
theorem C3_counterexample :
    ((selectTxs [] "Reserve" [⟨"2023-01-01", "w", 3, "Reserve", .income⟩]).map
        (getTxImpact .asset)).sum = -3 ∧
    linkContribution .asset [] ⟨"Reserve", some (-5), "lifetime"⟩
      [⟨"2023-01-01", "w", 3, "Reserve", .income⟩] = -5 ∧
    ((-3 : ℤ) < 0) ∧ ((-5 : ℤ) ≠ -3) := by
  exact ⟨by decide, by decide, by decide, by decide⟩

/-- C3 (amended): for a link whose cap is unset (falsy) or whose period is
`'lifetime'`, the contribution is the lifetime sum of signed impacts over
the selected transactions, clamped to the cap exactly when the cap is
truthy and the sum exceeds it; a negative lifetime total is never clamped
provided the cap is unset or nonnegative. -/
theorem C3_lifetime_sum (it : ItemType) (kws : List String) (n : String)
    (cap : Option ℤ) (p : String) (txs : List Transaction)
    (h : capTruthy cap = false ∨ p = "lifetime") :
    linkContribution it kws ⟨n, cap, p⟩ txs =
      (if capTruthy cap = true ∧
          cap.getD 0 < ((selectTxs kws n txs).map (getTxImpact it)).sum
       then cap.getD 0
       else ((selectTxs kws n txs).map (getTxImpact it)).sum) ∧
    (((selectTxs kws n txs).map (getTxImpact it)).sum < 0 → 0 ≤ cap.getD 0 →
      linkContribution it kws ⟨n, cap, p⟩ txs =
        ((selectTxs kws n txs).map (getTxImpact it)).sum) := by
  have hmain : linkContribution it kws ⟨n, cap, p⟩ txs =
      if capTruthy cap = true ∧
          cap.getD 0 < ((selectTxs kws n txs).map (getTxImpact it)).sum
      then cap.getD 0
      else ((selectTxs kws n txs).map (getTxImpact it)).sum := by
    unfold linkContribution
    rw [if_pos h]
    cases cap with
    | none => simp [capTruthy]
    | some c =>
        by_cases hc : c = 0
        · subst hc; simp [capTruthy]
        · simp only [capTruthy, Option.getD_some]
          split_ifs with h1 h2 <;> simp_all
  refine ⟨hmain, ?_⟩
  intro hneg hle
  rw [hmain]
  rw [if_neg ?_]
  rintro ⟨ht, hlt⟩
  have : (0 : ℤ) < cap.getD 0 ∨ 0 = cap.getD 0 := hle.lt_or_eq
  rcases this with h0 | h0
  · exact absurd (hneg.trans (h0.trans hlt)) (lt_irrefl _)
  · cases cap with
    | none => exact absurd (hneg.trans hlt) (by simp [← h0])
    | some c =>
        simp only [Option.getD_some] at h0
        simp [capTruthy, ← h0] at ht

/-- Witness for C3 on the asset-sign test data with a lifetime cap of 5:
the lifetime total 800 exceeds the cap and is clamped. -/
theorem C3_lifetime_sum_witness :
    (capTruthy (some (5 : ℤ)) = false ∨ ("lifetime" : String) = "lifetime") ∧
    linkContribution .asset [] ⟨"Reserve", some 5, "lifetime"⟩
      [⟨"2023-01-01", "", 1000, "Reserve", .expense⟩,
       ⟨"2023-01-05", "", 200, "Reserve", .income⟩] = 5 := by
  refine ⟨Or.inr rfl, ?_⟩
  rw [(C3_lifetime_sum .asset [] "Reserve" (some 5) "lifetime"
    [⟨"2023-01-01", "", 1000, "Reserve", .expense⟩,
     ⟨"2023-01-05", "", 200, "Reserve", .income⟩] (Or.inr rfl)).1]
  decide

/-- C4: for a calculated item the valuation is `max 0 r'`, where `r'` is
the aggregated running total reduced to `min r maxValue` exactly when
`maxValue` is set and positive; consequently the valuation of a calculated
item is never negative. -/
theorem C4_finalize (item : BalanceSheetItem) (txs : List Transaction)
    (hic : item.isCalculated = true) :
    calculateDynamicValue item txs =
      max 0 (match item.maxValue with
             | some mv => if 0 < mv then min (rawRunningTotal item txs) mv
                          else rawRunningTotal item txs
             | none => rawRunningTotal item txs) ∧
    0 ≤ calculateDynamicValue item txs := by
  constructor
  · simp only [calculateDynamicValue, hic, rawRunningTotal, foldl_add_eq]
    simp
  · simp only [calculateDynamicValue, hic]
    simp only [Bool.true_eq_false, if_false]
    exact le_max_left 0 _

/-- Witness for C4: a calculated item with `maxValue` 1200 over the test
ledger; its valuation is nonnegative by the theorem. -/
theorem C4_finalize_witness :
    (BalanceSheetItem.mk .asset 0 true none [.str "Cloud"] none (some 1200)).isCalculated
      = true ∧
    0 ≤ calculateDynamicValue
      (BalanceSheetItem.mk .asset 0 true none [.str "Cloud"] none (some 1200))
      [⟨"2023-01-15", "", 500, "Cloud", .expense⟩] :=
  ⟨rfl, (C4_finalize _ _ rfl).2⟩

/-- C5: the snapshot filter with the `'today'` sentinel returns the ledger
unchanged; with any other selection it keeps exactly the transactions whose
date string is lexicographically at most the cutoff `"<selection>-12-31"`,
in their original relative order (a sublist of the input). -/
theorem C5_snapshot (txs : List Transaction) (s : String) (hs : s ≠ "today") :
    snapshotTransactions txs s = txs.filter (fun t => jsStrLe t.date (s ++ "-12-31")) ∧
    (snapshotTransactions txs s).Sublist txs ∧
    snapshotTransactions txs "today" = txs := by
  refine ⟨?_, ?_, ?_⟩
  · unfold snapshotTransactions; rw [if_neg hs]
  · unfold snapshotTransactions; rw [if_neg hs]; exact List.filter_sublist _
  · rfl

/-- Witness for C5: a 2023 snapshot keeps the 2023 transaction and drops
the 2024 one. -/
theorem C5_snapshot_witness :
    (("2023" : String) ≠ "today") ∧
    snapshotTransactions
      [⟨"2023-01-15", "", 500, "Cloud", .expense⟩,
       ⟨"2024-02-10", "", 400, "Cloud", .expense⟩] "2023"
      = [⟨"2023-01-15", "", 500, "Cloud", .expense⟩] := by
  refine ⟨by decide, ?_⟩
  rw [(C5_snapshot
    [⟨"2023-01-15", "", 500, "Cloud", .expense⟩,
     ⟨"2024-02-10", "", 400, "Cloud", .expense⟩] "2023" (by decide)).1]
  decide

/-- C6 counterexample: a transaction with the unparseable date
`"not-a-date"` inside a monthly-capped link is not excluded from periodic
grouping: it lands in the NaN bucket and contributes its full impact 50,
so the valuation is 50 rather than the claimed 0. -/
theorem C6_counterexample :
    parseDate "not-a-date" = none ∧
    calculateDynamicValue
      (BalanceSheetItem.mk .asset 0 true none
        [.obj "Cloud" (some 100) (some "monthly")] none none)
      [⟨"not-a-date", "", 50, "Cloud", .expense⟩] = 50 ∧
    ((50 : ℤ) ≠ 0) := by
  exact ⟨by decide, by decide, by decide⟩

/-- C6 (amended): the valuation never throws (the embedding is a total
function), but a transaction with an unparseable date is not excluded from
periodic grouping: it is grouped under the stringified-NaN period key
(`"NaN-NaN"` monthly, `"NaN-QNaN"` quarterly, `"NaN"` yearly) and its
signed impact reaches the running total like any other bucket. -/
theorem C6_malformed_date (it : ItemType) (kws : List String) (n : String) (c : ℤ)
    (p : String) (t : Transaction)
    (hd : parseDate t.date = none) (hc : c ≠ 0) (hp : p ≠ "lifetime")
    (hsel : selectTxs kws n [t] = [t]) :
    getPeriodKey t.date p =
      (if p = "quarterly" then "NaN-QNaN"
       else if p = "yearly" then "NaN" else "NaN-NaN") ∧
    linkContribution it kws ⟨n, some c, p⟩ [t] =
      effectiveAmount (some c) (getTxImpact it t) := by
  constructor
  · unfold getPeriodKey
    rw [hd]
  · have hcond : ¬ (capTruthy (some c) = false ∨ p = "lifetime") := by
      simp [capTruthy, hc, hp]
    unfold linkContribution
    rw [if_neg hcond, hsel]
    simp [buildGroups, insertAdd]

/-- Witness for C6 at the concrete malformed date. -/
theorem C6_malformed_date_witness :
    parseDate "not-a-date" = none ∧ ((100 : ℤ) ≠ 0) ∧
    (("monthly" : String) ≠ "lifetime") ∧
    selectTxs [] "Cloud" [⟨"not-a-date", "", 50, "Cloud", .expense⟩]
      = [⟨"not-a-date", "", 50, "Cloud", .expense⟩] ∧
    linkContribution .asset [] ⟨"Cloud", some 100, "monthly"⟩
      [⟨"not-a-date", "", 50, "Cloud", .expense⟩]
      = effectiveAmount (some 100)
          (getTxImpact .asset ⟨"not-a-date", "", 50, "Cloud", .expense⟩) := by
  refine ⟨by decide, by decide, by decide, by decide, ?_⟩
  exact (C6_malformed_date .asset [] "Cloud" 100 "monthly"
    ⟨"not-a-date", "", 50, "Cloud", .expense⟩
    (by decide) (by decide) (by decide) (by decide)).2

/-- C7 counterexample: a negative cap (−5) is truthy, not "unset": with a
single selected expense of 10 the uncapped sum is 10, yet the contribution
is clamped to −5 and the valuation floors at 0 instead of reaching 10. -/
theorem C7_counterexample :
    ((selectTxs [] "Loan" [⟨"2023-01-01", "", 10, "Loan", .expense⟩]).map
      (getTxImpact .asset)).sum = 10 ∧
    linkContribution .asset [] ⟨"Loan", some (-5), "lifetime"⟩
      [⟨"2023-01-01", "", 10, "Loan", .expense⟩] = -5 ∧
    calculateDynamicValue
      (BalanceSheetItem.mk .asset 0 true none [.obj "Loan" (some (-5)) none] none none)
      [⟨"2023-01-01", "", 10, "Loan", .expense⟩] = 0 ∧
    ((-5 : ℤ) ≠ 10) := by
  exact ⟨by decide, by decide, by decide, by decide⟩

/-- C7 (amended): an undefined or zero cap is treated as unset — the
contribution is the uncapped lifetime sum regardless of the configured
period — but a negative cap is truthy and does clamp; an undefined or
non-positive maxValue imposes no ceiling, so the valuation is the bare
`max 0` of the running total; no validation error is raised (the engine is
total). -/
theorem C7_unset_cap (it : ItemType) (kws : List String) (n : String) (p : String)
    (txs : List Transaction) (item : BalanceSheetItem) (txs2 : List Transaction)
    (hic : item.isCalculated = true)
    (hmv : item.maxValue = none ∨ ∃ mv, item.maxValue = some mv ∧ mv ≤ 0) :
    linkContribution it kws ⟨n, none, p⟩ txs =
      ((selectTxs kws n txs).map (getTxImpact it)).sum ∧
    linkContribution it kws ⟨n, some 0, p⟩ txs =
      ((selectTxs kws n txs).map (getTxImpact it)).sum ∧
    calculateDynamicValue item txs2 = max 0 (rawRunningTotal item txs2) := by
  refine ⟨?_, ?_, ?_⟩
  · unfold linkContribution
    rw [if_pos (Or.inl (by simp [capTruthy]))]
  · unfold linkContribution
    rw [if_pos (Or.inl (by simp [capTruthy]))]
    simp
  · simp only [calculateDynamicValue, hic, rawRunningTotal, foldl_add_eq]
    rcases hmv with h | ⟨mv, hmveq, hle⟩
    · simp [h]
    · simp [hmveq, not_lt.mpr hle]

/-- Witness for C7: an unset cap on a monthly link and an item with no
maxValue. -/
theorem C7_unset_cap_witness :
    ((BalanceSheetItem.mk .liability 0 true none [.str "Loan"] none none).isCalculated
      = true) ∧
    ((BalanceSheetItem.mk .liability 0 true none [.str "Loan"] none none).maxValue
      = none) ∧
    linkContribution .liability [] ⟨"Loan", none, "monthly"⟩
      [⟨"2023-01-01", "", 7, "Loan", .income⟩]
      = ((selectTxs [] "Loan" [⟨"2023-01-01", "", 7, "Loan", .income⟩]).map
          (getTxImpact .liability)).sum := by
  refine ⟨rfl, rfl, ?_⟩
  exact (C7_unset_cap .liability [] "Loan" "monthly"
    [⟨"2023-01-01", "", 7, "Loan", .income⟩]
    (BalanceSheetItem.mk .liability 0 true none [.str "Loan"] none none) []
    rfl (Or.inl rfl)).1

/-- C8: permuting the transaction list and permuting the item's
linkedCategories list leave the computed valuation unchanged — every
contribution is a commutative sum. -/
theorem C8_order_independence (item : BalanceSheetItem) (txs txs' : List Transaction)
    (cats' : List LinkedCategoryEntry)
    (htx : txs.Perm txs') (hcat : item.linkedCategories.Perm cats') :
    calculateDynamicValue item txs =
      calculateDynamicValue { item with linkedCategories := cats' } txs' := by
  obtain ⟨ity, v, ic, iv, lc, lk, mv⟩ := item
  simp only at hcat
  cases ic with
  | false => rfl
  | true =>
      simp only [calculateDynamicValue, Bool.true_eq_false, if_false, foldl_add_eq]
      have hfun : (fun link => linkContribution ity (globalKeywordsOf lk) link txs)
          = (fun link => linkContribution ity (globalKeywordsOf lk) link txs') :=
        funext (fun link => linkContribution_perm ity _ link txs txs' htx)
      rw [hfun]
      have hperm :
          ((lc.map normalizeLink).map
            (fun link => linkContribution ity (globalKeywordsOf lk) link txs')).Perm
          ((cats'.map normalizeLink).map
            (fun link => linkContribution ity (globalKeywordsOf lk) link txs')) :=
        (hcat.map normalizeLink).map _
      rw [hperm.sum_eq]

/-- Witness for C8: swapping both the two transactions and the two category
links preserves the valuation. -/
theorem C8_order_independence_witness :
    ([⟨"2023-01-15", "", 500, "Cloud", .expense⟩,
      ⟨"2023-01-20", "", 600, "Extra", .expense⟩] : List Transaction).Perm
      [⟨"2023-01-20", "", 600, "Extra", .expense⟩,
       ⟨"2023-01-15", "", 500, "Cloud", .expense⟩] ∧
    ([LinkedCategoryEntry.str "Cloud", LinkedCategoryEntry.str "Extra"] :
      List LinkedCategoryEntry).Perm
      [LinkedCategoryEntry.str "Extra", LinkedCategoryEntry.str "Cloud"] ∧
    calculateDynamicValue
      (BalanceSheetItem.mk .asset 0 true none
        [LinkedCategoryEntry.str "Cloud", LinkedCategoryEntry.str "Extra"] none none)
      [⟨"2023-01-15", "", 500, "Cloud", .expense⟩,
       ⟨"2023-01-20", "", 600, "Extra", .expense⟩]
      = calculateDynamicValue
      (BalanceSheetItem.mk .asset 0 true none
        [LinkedCategoryEntry.str "Extra", LinkedCategoryEntry.str "Cloud"] none none)
      [⟨"2023-01-20", "", 600, "Extra", .expense⟩,
       ⟨"2023-01-15", "", 500, "Cloud", .expense⟩] := by
  refine ⟨by decide, by decide, ?_⟩
  exact C8_order_independence
    (BalanceSheetItem.mk .asset 0 true none
      [LinkedCategoryEntry.str "Cloud", LinkedCategoryEntry.str "Extra"] none none)
    _ _ _ (by decide) (by decide)

/-- Pointwise rewriting relation used by C9: replace a bare string link by
its explicit record with no cap and lifetime period, or add the default
lifetime period to a record lacking one, or keep the entry. -/
def entryStep (a b : LinkedCategoryEntry) : Prop :=
  (∃ n, a = .str n ∧ b = .obj n none (some "lifetime")) ∨
  (∃ n c, a = .obj n c none ∧ b = .obj n c (some "lifetime")) ∨
  a = b

/-- Entries related by `entryStep` normalize to links with identical
contributions: a bare string normalizes with `cap: 0`, the explicit record
with `cap: undefined`, and both caps are falsy. -/
theorem linkContribution_entryStep (it : ItemType) (kws : List String)
    (a b : LinkedCategoryEntry) (h : entryStep a b) (txs : List Transaction) :
    linkContribution it kws (normalizeLink a) txs
      = linkContribution it kws (normalizeLink b) txs := by
  rcases h with ⟨n, rfl, rfl⟩ | ⟨n, c, rfl, rfl⟩ | rfl
  · show linkContribution it kws ⟨n, some 0, "lifetime"⟩ txs
        = linkContribution it kws ⟨n, none, "lifetime"⟩ txs
    unfold linkContribution
    rw [if_pos (Or.inr rfl), if_pos (Or.inr rfl)]
    simp
  · rfl
  · rfl

/-- C9: replacing a bare-string category link by the explicit record
`{name, cap: undefined, period: 'lifetime'}`, and defaulting an absent
period to `'lifetime'`, yields the same valuation for every ledger. -/
theorem C9_normalization (item : BalanceSheetItem) (txs : List Transaction)
    (cats' : List LinkedCategoryEntry)
    (h : List.Forall₂ entryStep item.linkedCategories cats') :
    calculateDynamicValue item txs =
      calculateDynamicValue { item with linkedCategories := cats' } txs := by
  obtain ⟨ity, v, ic, iv, lc, lk, mv⟩ := item
  simp only at h
  cases ic with
  | false => rfl
  | true =>
      simp only [calculateDynamicValue, Bool.true_eq_false, if_false, foldl_add_eq]
      have hsum :
          ((lc.map normalizeLink).map
            (fun l => linkContribution ity (globalKeywordsOf lk) l txs)).sum
          = ((cats'.map normalizeLink).map
              (fun l => linkContribution ity (globalKeywordsOf lk) l txs)).sum := by
        induction h with
        | nil => rfl
        | cons hab htl ih =>
            simp only [List.map_cons, List.sum_cons, ih]
            rw [linkContribution_entryStep ity _ _ _ hab txs]
      rw [hsum]

/-- Witness for C9: upgrading `["Cloud"]` to the explicit record form. -/
theorem C9_normalization_witness :
    List.Forall₂ entryStep [LinkedCategoryEntry.str "Cloud"]
      [LinkedCategoryEntry.obj "Cloud" none (some "lifetime")] ∧
    calculateDynamicValue
      (BalanceSheetItem.mk .asset 0 true none [LinkedCategoryEntry.str "Cloud"] none none)
      [⟨"2023-01-15", "", 500, "Cloud", .expense⟩]
      = calculateDynamicValue
      (BalanceSheetItem.mk .asset 0 true none
        [LinkedCategoryEntry.obj "Cloud" none (some "lifetime")] none none)
      [⟨"2023-01-15", "", 500, "Cloud", .expense⟩] := by
  have hf : List.Forall₂ entryStep [LinkedCategoryEntry.str "Cloud"]
      [LinkedCategoryEntry.obj "Cloud" none (some "lifetime")] :=
    List.Forall₂.cons (Or.inl ⟨"Cloud", rfl, rfl⟩) List.Forall₂.nil
  exact ⟨hf, C9_normalization
    (BalanceSheetItem.mk .asset 0 true none [LinkedCategoryEntry.str "Cloud"] none none)
    _ _ hf⟩

/-- C10: a non-empty linkedKeywords string one of whose comma-separated
segments trims (after lower-casing) to the empty string — a trailing
comma, or a whitespace-only string — makes the keyword filter accept every
transaction, because the empty string is a substring of every description;
the selection then equals the category-only selection with no keyword
list. -/
theorem C10_empty_keyword (s : String) (n : String) (txs : List Transaction)
    (h1 : s ≠ "") (h2 : "" ∈ globalKeywordsOf (some s)) :
    selectTxs (globalKeywordsOf (some s)) n txs = selectTxs [] n txs := by
  unfold selectTxs
  apply List.filter_congr
  intro t _
  have hinc : strIncludes (toLowerStr t.description) "" = true := by
    unfold strIncludes
    cases (toLowerStr t.description).data with
    | nil => rfl
    | cons c tl => simp [listHasSub, listStartsWith]
  have hany : (globalKeywordsOf (some s)).any
      (fun k => strIncludes (toLowerStr t.description) k) = true :=
    List.any_eq_true.mpr ⟨"", h2, hinc⟩
  rw [hany]
  simp

/-- Witness for C10: `linkedKeywords = "cloud, "` (trailing comma) keeps a
transaction whose description contains neither keyword text. -/
theorem C10_empty_keyword_witness :
    (("cloud, " : String) ≠ "") ∧
    ("" ∈ globalKeywordsOf (some "cloud, ")) ∧
    selectTxs (globalKeywordsOf (some "cloud, ")) "Cloud"
      [⟨"2023-01-15", "server", 500, "Cloud", .expense⟩]
      = selectTxs [] "Cloud" [⟨"2023-01-15", "server", 500, "Cloud", .expense⟩] := by
  refine ⟨by decide, by decide, ?_⟩
  exact C10_empty_keyword "cloud, " "Cloud"
    [⟨"2023-01-15", "server", 500, "Cloud", .expense⟩] (by decide) (by decide)
